import Mathlib

/-!
Verification of the TrueTicket remote deployment script
(`src/scripts/remote-deploy.py`).

The script connects to one fixed host over SSH, runs a hardcoded list of
shell commands through `run_command`, streams stdout (with a lossy ASCII
fallback on `UnicodeEncodeError`), prints a `STDERR:` block inside a bare
`try/except`, warns on non-zero exit status unless the command string
contains `"curl"`, catches any exception in `main` (printing `Error: ...`
and exiting 1) and closes the SSH client in a `finally` block.

The embedding below models the script's observable behaviour as a trace of
events: printed lines together with the calls to `exec_command`, `connect`
and `close`.  The remote side is an oracle (`ExecBehavior` per command,
plus a connect outcome), and the invoker's output encoding is a predicate
on lines (`encOk`), since whether `print` raises `UnicodeEncodeError`
depends on the invoker's terminal encoding.
-/

namespace RemoteDeploy

/-- Transport-level failures: `paramiko` exceptions raised by `connect`
(`ConnectionError`), by `exec_command` on a dead session
(`ExecutionError`), or by a command that does not finish within its
timeout (`TimeoutError`).  All are caught by the single
`except Exception` handler in `main`. -/
inductive TransportError
  | connErr
  | execErr
  | timeoutErr
deriving DecidableEq, Repr

/-- Oracle for one remote command execution: either `exec_command` (or the
subsequent stream handling) raises a transport error, or the command runs,
yielding its stdout lines, the outcome of `stderr.read().decode(...)`
(`Except.error` when reading the error stream raises), and its exit
status. -/
inductive ExecBehavior
  | raises (e : TransportError)
  | runs (stdoutLines : List String) (stderrRead : Except Unit String) (exitStatus : Int)
deriving Repr

/-- `true` exactly when the behaviour is a completed run (no transport
raise). -/
def ExecBehavior.isRuns : ExecBehavior → Bool
  | .runs _ _ _ => true
  | .raises _ => false

/-- Observable events of one process run: printed lines (each carrying
its payload) and the transport calls `exec_command`, `connect`,
`close`. -/
inductive Event
  | info (s : String)
  | announce (cmd : String)
  | execCall (cmd : String)
  | connectCall
  | stdoutLine (s : String)
  | stderrBlock (s : String)
  | warning (status : Int)
  | errorMsg (e : TransportError)
  | closeCall
deriving DecidableEq, Repr

/-- `line.encode('ascii', 'replace').decode()`: every character outside
the 7-bit ASCII range is replaced by `?`. -/
def asciiReplace (s : String) : String :=
  String.mk (s.data.map fun c => if c.toNat < 128 then c else '?')

/-- `pat` matches at the head of `cs` (helper for Python's substring
`in`). -/
def matchesAt : List Char → List Char → Bool
  | [], _ => true
  | _ :: _, [] => false
  | p :: ps, c :: cs => p == c && matchesAt ps cs

/-- `pat` occurs somewhere in `cs` (helper for Python's substring
`in`). -/
def subOccurs (pat : List Char) : List Char → Bool
  | [] => matchesAt pat []
  | c :: cs => matchesAt pat (c :: cs) || subOccurs pat cs

/-- Python's substring test `pat in hay`. -/
def strContains (hay pat : String) : Bool :=
  subOccurs pat.data hay.data

/-- The stdout streaming loop of `run_command`: each line is printed as
it arrives; when the invoker's encoding cannot represent it
(`UnicodeEncodeError`), the lossy ASCII re-encoding is printed instead. -/
def outEvents (encOk : String → Bool) (outs : List String) : List Event :=
  outs.map fun l => .stdoutLine (if encOk l then l else asciiReplace l)

/-- The stderr block of `run_command`: inside `try: ... except: pass`,
the error stream is read and decoded; when non-empty (and the `STDERR:`
line itself is printable) one `STDERR:` block is printed.  Any raise
inside the `try` yields no block. -/
def errEvents (encOk : String → Bool) : Except Unit String → List Event
  | .error _ => []
  | .ok err => if err != "" && encOk ("STDERR: " ++ err) then [.stderrBlock err] else []

/-- `run_command(ssh, command, timeout)`: announces the command, calls
`exec_command`, streams stdout, prints the stderr block, and returns the
exit status from `recv_exit_status`; a transport raise propagates as
`Except.error`. -/
def run_command (encOk : String → Bool) (cmd : String) :
    ExecBehavior → List Event × Except TransportError Int
  | .raises e => ([.announce cmd, .execCall cmd], .error e)
  | .runs outs errRead st =>
      (.announce cmd :: .execCall cmd :: (outEvents encOk outs ++ errEvents encOk errRead),
       .ok st)

/-- The warning step of the loop in `main`:
`if status != 0 and "curl" not in cmd: print warning`. -/
def warnEvents (cmd : String) (status : Int) : List Event :=
  if status != 0 && !(strContains cmd "curl") then [.warning status] else []

/-- The `for cmd in commands` loop of `main`, indexed so that the oracle
`beh` assigns a behaviour to each position: each command is announced,
executed and fully drained, a warning possibly printed, and the loop
moves on; a transport raise propagates immediately with the events so
far. -/
def runCommands (encOk : String → Bool) (beh : Nat → ExecBehavior) :
    List String → Nat → List Event × Option TransportError
  | [], _ => ([], none)
  | c :: cs, i =>
      match run_command encOk c (beh i) with
      | (evs, .error e) => (evs, some e)
      | (evs, .ok st) =>
          (evs ++ warnEvents c st ++ (runCommands encOk beh cs (i + 1)).1,
           (runCommands encOk beh cs (i + 1)).2)

/-- The fixed target host compiled into the script. -/
def HOST : String := "66.135.29.248"

/-- The prints of `main` before `connect` is attempted: the banner and the
`Connecting to ...` line. -/
def headerEvents : List Event :=
  [.info (String.mk (List.replicate 50 '=')),
   .info "TrueTicket Remote Deployment",
   .info (String.mk (List.replicate 50 '=')),
   .info ("\nConnecting to " ++ HOST ++ "...")]

/-- The prints of `main` after the loop completes: closing banner and the
fixed pair of result URLs. -/
def footerEvents : List Event :=
  [.info ("\n" ++ String.mk (List.replicate 50 '=')),
   .info "Deployment Complete!",
   .info (String.mk (List.replicate 50 '=')),
   .info "\nYour site should be accessible at:",
   .info "  https://trueticket.me",
   .info "  https://www.trueticket.me",
   .info "\nNote: SSL certificate provisioning may take a few minutes."]

/-- The hardcoded deployment command list of `main`. -/
def commands : List String :=
  ["docker system prune -af --volumes || true",
   "cd /opt/trueticket && git pull origin main",
   "mkdir -p /opt/trueticket/data",
   "cat > /opt/trueticket/.env << 'ENVEOF'\nNODE_ENV=production\nDATABASE_URL=file:/app/data/prod.db\nJWT_SECRET=test-secret-change-in-production-$(openssl rand -hex 16)\nBLOCKCHAIN_NETWORK=polygon\nNEXT_PUBLIC_STRIPE_PUBLISHABLE_KEY=pk_test_placeholder\nENVEOF",
   "cd /opt/trueticket && docker-compose build --no-cache",
   "cd /opt/trueticket && docker-compose up -d",
   "sleep 15",
   "docker ps",
   "curl -s http://localhost:3000/api/health || echo 'Health check pending...'"]

/-- The environment a run is driven by: whether `connect` raises, the
behaviour of each command execution, and which lines the invoker's output
encoding can represent. -/
structure Env where
  connectOutcome : Option TransportError
  beh : Nat → ExecBehavior
  encOk : String → Bool

/-- `main`, parametric in the command list: header prints, `connect`
(whose raise is caught by the `except` handler, printing `Error:` and
exiting 1), the command loop, the closing banner on success, the `Error:`
line on a loop raise, and in every case the `finally: ssh.close()`.  The
second component is the process exit code. -/
def mainWith (env : Env) (cs : List String) : List Event × Nat :=
  match env.connectOutcome with
  | some e =>
      (headerEvents ++ [.connectCall, .errorMsg e, .closeCall], 1)
  | none =>
      match runCommands env.encOk env.beh cs 0 with
      | (evs, some e) =>
          (headerEvents ++ [.connectCall, .info "Connected successfully!\n"] ++ evs
             ++ [.errorMsg e, .closeCall], 1)
      | (evs, none) =>
          (headerEvents ++ [.connectCall, .info "Connected successfully!\n"] ++ evs
             ++ footerEvents ++ [.closeCall], 0)

/-- `main` as shipped: the loop over the hardcoded `commands` list. -/
def mainRun (env : Env) : List Event × Nat :=
  mainWith env commands

/-- The commands passed to `exec_command`, in trace order. -/
def execCalls (evs : List Event) : List String :=
  evs.filterMap fun ev =>
    match ev with
    | .execCall c => some c
    | _ => none

/-- The text a print event writes to the progress channel (transport
calls print nothing). -/
def printedLines : Event → List String
  | .info s => [s]
  | .announce c => ["\n>>> " ++ c]
  | .stdoutLine s => [s]
  | .stderrBlock s => ["STDERR: " ++ s]
  | .warning st => ["\nWarning: Command exited with status " ++ toString st]
  | .errorMsg _ => ["Error: <exception text>"]
  | .execCall _ => []
  | .connectCall => []
  | .closeCall => []

/-- All lines printed to the progress channel by a trace, in order. -/
def printsOf (evs : List Event) : List String :=
  (evs.map printedLines).flatten

/-- `true` exactly on the `Error:` line printed by the `except` handler
of `main`. -/
def isErrLine : Event → Bool
  | .errorMsg _ => true
  | _ => false

/-- The complete event block of one command when the loop does not abort:
announcement, `exec_command` call, streamed stdout, stderr block, and the
possible warning. -/
def stepTrace (encOk : String → Bool) (c : String) : ExecBehavior → List Event
  | .raises e => (run_command encOk c (.raises e)).1
  | .runs outs errRead st => (run_command encOk c (.runs outs errRead st)).1 ++ warnEvents c st

/-- The whole-loop trace when every command completes: the concatenation
of the per-command blocks, in list order. -/
def fullTraces (encOk : String → Bool) (beh : Nat → ExecBehavior) :
    List String → Nat → List Event
  | [], _ => []
  | c :: cs, i => stepTrace encOk c (beh i) ++ fullTraces encOk beh cs (i + 1)

/-- State of the transport session handle, for the `close` contract. -/
inductive SessionState
  | neverConnected
  | connected
  | closed
deriving DecidableEq, Repr

/-- Modelled from the spec: `close(session)` — the transport session's
release primitive (`paramiko.SSHClient.close`, library code not in this
repository) "releases the connection; idempotent", safe on a session that
never connected or was already closed. -/
def closeSessionState : SessionState → SessionState :=
  fun _ => .closed

/-! ## Helper lemmas -/

theorem execCalls_append (xs ys : List Event) :
    execCalls (xs ++ ys) = execCalls xs ++ execCalls ys := by
  simp [execCalls, List.filterMap_append]

theorem execCalls_outEvents (encOk : String → Bool) (outs : List String) :
    execCalls (outEvents encOk outs) = [] := by
  induction outs with
  | nil => rfl
  | cons l ls ih => simp [outEvents, execCalls, List.filterMap_cons]

theorem execCalls_errEvents (encOk : String → Bool) (er : Except Unit String) :
    execCalls (errEvents encOk er) = [] := by
  cases er with
  | error u => rfl
  | ok err =>
      simp only [errEvents]
      split
      · rfl
      · rfl

theorem execCalls_warnEvents (c : String) (st : Int) :
    execCalls (warnEvents c st) = [] := by
  simp only [warnEvents]
  split
  · rfl
  · rfl

theorem execCalls_announce_cons (c : String) (evs : List Event) :
    execCalls (.announce c :: evs) = execCalls evs := by
  simp [execCalls, List.filterMap_cons]

theorem execCalls_execCall_cons (c : String) (evs : List Event) :
    execCalls (.execCall c :: evs) = c :: execCalls evs := by
  simp [execCalls, List.filterMap_cons]

theorem execCalls_run_command (encOk : String → Bool) (c : String) (b : ExecBehavior) :
    execCalls (run_command encOk c b).1 = [c] := by
  cases b with
  | raises e => rfl
  | runs outs er st =>
      simp [run_command, execCalls_announce_cons, execCalls_execCall_cons,
        execCalls_append, execCalls_outEvents, execCalls_errEvents]

theorem execCalls_stepTrace (encOk : String → Bool) (c : String) (b : ExecBehavior) :
    execCalls (stepTrace encOk c b) = [c] := by
  cases b with
  | raises e => rfl
  | runs outs er st =>
      simp [stepTrace, execCalls_append, execCalls_run_command, execCalls_warnEvents]

theorem runCommands_eq_fullTraces (encOk : String → Bool) (beh : Nat → ExecBehavior)
    (cs : List String) :
    ∀ i, (∀ j, j < cs.length → (beh (i + j)).isRuns = true) →
      runCommands encOk beh cs i = (fullTraces encOk beh cs i, none) := by
  induction cs with
  | nil => intro i _; rfl
  | cons c cs ih =>
      intro i h
      have h0 : (beh i).isRuns = true := by
        have := h 0 (by simp)
        rwa [Nat.add_zero] at this
      cases hbi : beh i with
      | raises e => rw [hbi] at h0; simp [ExecBehavior.isRuns] at h0
      | runs outs er st =>
          have ihc := ih (i + 1) (by
            intro j hj
            have hb := h (j + 1) (by simpa using Nat.succ_lt_succ hj)
            have e1 : i + (j + 1) = i + 1 + j := by omega
            rwa [e1] at hb)
          simp [runCommands, fullTraces, hbi, stepTrace, run_command, ihc,
            List.append_assoc]

theorem execCalls_fullTraces (encOk : String → Bool) (beh : Nat → ExecBehavior)
    (cs : List String) :
    ∀ i, execCalls (fullTraces encOk beh cs i) = cs := by
  induction cs with
  | nil => intro i; rfl
  | cons c cs ih =>
      intro i
      simp [fullTraces, execCalls_append, execCalls_stepTrace, ih]

theorem runCommands_none_iff (encOk : String → Bool) (beh : Nat → ExecBehavior)
    (cs : List String) :
    ∀ i, (runCommands encOk beh cs i).2 = none ↔
      ∀ j, j < cs.length → (beh (i + j)).isRuns = true := by
  induction cs with
  | nil => intro i; simp [runCommands]
  | cons c cs ih =>
      intro i
      cases hbi : beh i with
      | raises e =>
          constructor
          · intro hco
            simp [runCommands, hbi, run_command] at hco
          · intro hall
            have := hall 0 (by simp)
            rw [Nat.add_zero, hbi] at this
            simp [ExecBehavior.isRuns] at this
      | runs outs er st =>
          have base : (runCommands encOk beh (c :: cs) i).2 =
              (runCommands encOk beh cs (i + 1)).2 := by
            simp [runCommands, hbi, run_command]
          rw [base, ih (i + 1)]
          constructor
          · intro hall j hj
            cases j with
            | zero => rw [Nat.add_zero, hbi]; rfl
            | succ j =>
                have hj' : j < cs.length := by simpa using Nat.lt_of_succ_lt_succ hj
                have := hall j hj'
                have e1 : i + 1 + j = i + (j + 1) := by omega
                rwa [e1] at this
          · intro hall j hj
            have := hall (j + 1) (by simpa using Nat.succ_lt_succ hj)
            have e1 : i + (j + 1) = i + 1 + j := by omega
            rwa [e1] at this

theorem runCommands_abort (encOk : String → Bool) (beh : Nat → ExecBehavior)
    (cs : List String) :
    ∀ i k e, (∀ j, j < k → (beh (i + j)).isRuns = true) →
      beh (i + k) = .raises e → k < cs.length →
      (runCommands encOk beh cs i).2 = some e ∧
      execCalls (runCommands encOk beh cs i).1 = cs.take (k + 1) := by
  induction cs with
  | nil => intro i k e _ _ hlen; simp at hlen
  | cons c cs ih =>
      intro i k e hpre hk hlen
      cases k with
      | zero =>
          rw [Nat.add_zero] at hk
          refine ⟨?_, ?_⟩
          · simp [runCommands, hk, run_command]
          · simp [runCommands, hk, run_command, execCalls]
      | succ k =>
          have h0 : (beh i).isRuns = true := by
            have := hpre 0 (Nat.succ_pos k)
            rwa [Nat.add_zero] at this
          cases hbi : beh i with
          | raises e2 => rw [hbi] at h0; simp [ExecBehavior.isRuns] at h0
          | runs outs er st =>
              have hpre' : ∀ j, j < k → (beh (i + 1 + j)).isRuns = true := by
                intro j hj
                have := hpre (j + 1) (Nat.succ_lt_succ hj)
                have e1 : i + (j + 1) = i + 1 + j := by omega
                rwa [e1] at this
              have hk' : beh (i + 1 + k) = .raises e := by
                have e1 : i + (k + 1) = i + 1 + k := by omega
                rwa [e1] at hk
              obtain ⟨ih1, ih2⟩ :=
                ih (i + 1) k e hpre' hk' (Nat.lt_of_succ_lt_succ hlen)
              refine ⟨?_, ?_⟩
              · simp [runCommands, hbi, run_command, ih1]
              · simp [runCommands, hbi, run_command, execCalls_append,
                  execCalls_announce_cons, execCalls_execCall_cons,
                  execCalls_outEvents, execCalls_errEvents,
                  execCalls_warnEvents, ih2]

/-! ## Claim theorems -/

/-- C1: for every command list of length N on which every command
completes, the sequencer calls `exec_command` exactly N times, in list
order (the exec calls of the trace are exactly the command list), and the
trace is the concatenation of per-command blocks, so command `i+1`'s
block — which begins with its announcement and `exec_command` call —
appears only after all of command `i`'s stdout, stderr and warning events
have been emitted, i.e. after command `i` has been fully drained and its
exit status obtained. -/
theorem C1_sequencer_in_order (encOk : String → Bool) (beh : Nat → ExecBehavior)
    (cs : List String)
    (h : ∀ j, j < cs.length → (beh j).isRuns = true) :
    execCalls (runCommands encOk beh cs 0).1 = cs ∧
    (runCommands encOk beh cs 0).1 = fullTraces encOk beh cs 0 ∧
    (runCommands encOk beh cs 0).2 = none := by
  have h0 : ∀ j, j < cs.length → (beh (0 + j)).isRuns = true := by
    intro j hj
    rw [Nat.zero_add]
    exact h j hj
  have hrc := runCommands_eq_fullTraces encOk beh cs 0 h0
  refine ⟨?_, ?_, ?_⟩ <;> rw [hrc]
  exact execCalls_fullTraces encOk beh cs 0

theorem C1_witness :
    execCalls (runCommands (fun _ => true)
      (fun _ => .runs ["out"] (.ok "") 0) ["a", "b"] 0).1 = ["a", "b"] ∧
    (runCommands (fun _ => true)
      (fun _ => .runs ["out"] (.ok "") 0) ["a", "b"] 0).1 =
      fullTraces (fun _ => true) (fun _ => .runs ["out"] (.ok "") 0) ["a", "b"] 0 ∧
    (runCommands (fun _ => true)
      (fun _ => .runs ["out"] (.ok "") 0) ["a", "b"] 0).2 = none :=
  C1_sequencer_in_order (fun _ => true) (fun _ => .runs ["out"] (.ok "") 0)
    ["a", "b"] (fun _ _ => rfl)

/-- C2: for a command whose execution completes with exit status `st`,
the loop step appends exactly the events of `run_command`, then the
warning events, then the rest of the run; a warning carrying `st` is
among the warning events if and only if `st` is non-zero and the command
does not contain `"curl"`; and the sequencer proceeds to the next command
regardless of `st` (the remaining trace and outcome are those of the tail
of the list). -/
theorem C2_warning_iff (encOk : String → Bool) (beh : Nat → ExecBehavior)
    (c : String) (cs : List String) (i : Nat)
    (outs : List String) (errRead : Except Unit String) (st : Int)
    (hbi : beh i = .runs outs errRead st) :
    (runCommands encOk beh (c :: cs) i).1 =
      (run_command encOk c (beh i)).1 ++ warnEvents c st
        ++ (runCommands encOk beh cs (i + 1)).1 ∧
    (runCommands encOk beh (c :: cs) i).2 = (runCommands encOk beh cs (i + 1)).2 ∧
    (Event.warning st ∈ warnEvents c st ↔ (st ≠ 0 ∧ strContains c "curl" = false)) := by
  refine ⟨?_, ?_, ?_⟩
  · simp [runCommands, hbi, run_command, List.append_assoc]
  · simp [runCommands, hbi, run_command]
  · by_cases h0 : st = 0
    · subst h0
      simp [warnEvents]
    · by_cases hcu : strContains c "curl"
      · simp [warnEvents, h0, hcu]
      · simp [warnEvents, h0, hcu]

theorem C2_witness :
    (runCommands (fun _ => true) (fun _ => .runs [] (.ok "") 1)
        ["false", "docker ps"] 0).1 =
      (run_command (fun _ => true) "false" ((fun _ => ExecBehavior.runs [] (.ok "") 1) 0)).1
        ++ warnEvents "false" 1
        ++ (runCommands (fun _ => true) (fun _ => .runs [] (.ok "") 1) ["docker ps"] 1).1 ∧
    (runCommands (fun _ => true) (fun _ => .runs [] (.ok "") 1)
        ["false", "docker ps"] 0).2 =
      (runCommands (fun _ => true) (fun _ => .runs [] (.ok "") 1) ["docker ps"] 1).2 ∧
    (Event.warning 1 ∈ warnEvents "false" 1 ↔
      ((1 : Int) ≠ 0 ∧ strContains "false" "curl" = false)) :=
  C2_warning_iff (fun _ => true) (fun _ => .runs [] (.ok "") 1)
    "false" ["docker ps"] 0 [] (.ok "") 1 rfl

/-- C3: if `connect` raises, `exec_command` is called zero times, the
trace contains exactly one `Error:` line, and the process exit code
is 1. -/
theorem C3_connect_failure (env : Env) (cs : List String) (e : TransportError)
    (h : env.connectOutcome = some e) :
    execCalls (mainWith env cs).1 = [] ∧
    (mainWith env cs).1.filter isErrLine = [.errorMsg e] ∧
    (mainWith env cs).2 = 1 := by
  refine ⟨?_, ?_, ?_⟩ <;>
    simp [mainWith, h, headerEvents, execCalls, isErrLine, List.filter]

theorem C3_witness :
    execCalls (mainWith ⟨some .connErr, fun _ => .runs [] (.ok "") 0, fun _ => true⟩
      commands).1 = [] ∧
    (mainWith ⟨some .connErr, fun _ => .runs [] (.ok "") 0, fun _ => true⟩
      commands).1.filter isErrLine = [.errorMsg .connErr] ∧
    (mainWith ⟨some .connErr, fun _ => .runs [] (.ok "") 0, fun _ => true⟩
      commands).2 = 1 :=
  C3_connect_failure ⟨some .connErr, fun _ => .runs [] (.ok "") 0, fun _ => true⟩
    commands .connErr rfl

/-- C4: the process exit code is 0 exactly when `connect` succeeds and
every command in the list completes (regardless of the individual exit
statuses), and 1 exactly otherwise — that is, when connecting or some
command invocation raises a transport error. -/
theorem C4_exit_code (env : Env) (cs : List String) :
    ((mainWith env cs).2 = 0 ↔
      (env.connectOutcome = none ∧ ∀ j, j < cs.length → (env.beh j).isRuns = true)) ∧
    ((mainWith env cs).2 = 1 ↔
      ¬(env.connectOutcome = none ∧ ∀ j, j < cs.length → (env.beh j).isRuns = true)) := by
  have hiff : (runCommands env.encOk env.beh cs 0).2 = none ↔
      ∀ j, j < cs.length → (env.beh j).isRuns = true := by
    rw [runCommands_none_iff env.encOk env.beh cs 0]
    constructor
    · intro hall j hj
      have := hall j hj
      rwa [Nat.zero_add] at this
    · intro hall j hj
      rw [Nat.zero_add]
      exact hall j hj
  cases hc : env.connectOutcome with
  | some e => simp [mainWith, hc]
  | none =>
      rcases hrc : runCommands env.encOk env.beh cs 0 with ⟨evs, res⟩
      have hres : (runCommands env.encOk env.beh cs 0).2 = res := by rw [hrc]
      cases res with
      | some e =>
          have hna : ¬ ∀ j, j < cs.length → (env.beh j).isRuns = true := by
            intro hall
            rw [← hiff] at hall
            rw [hres] at hall
            cases hall
          simp [mainWith, hc, hrc, hna]
      | none =>
          have ha : ∀ j, j < cs.length → (env.beh j).isRuns = true := hiff.1 hres
          have hm : (mainWith env cs).2 = 0 := by simp [mainWith, hc, hrc]
          rw [hm]
          constructor
          · exact ⟨fun _ => ⟨rfl, ha⟩, fun _ => rfl⟩
          · constructor
            · intro h01
              exact absurd h01 (by decide)
            · intro hna
              exact absurd ⟨rfl, ha⟩ hna

/-- C5: if every command before position k completes but command k's
invocation raises `ExecutionError` or `TimeoutError`, the exception
propagates out of the loop: the run aborts with `exec_command` called
only on the first k+1 commands (none after k), the `Error:` line for the
raised exception is printed, and the process exits with code 1. -/
theorem C5_transport_error_aborts (env : Env) (cs : List String) (k : Nat)
    (e : TransportError)
    (hconn : env.connectOutcome = none)
    (hpre : ∀ j, j < k → (env.beh j).isRuns = true)
    (hk : env.beh k = .raises e)
    (he : e = .execErr ∨ e = .timeoutErr)
    (hlen : k < cs.length) :
    (mainWith env cs).2 = 1 ∧
    execCalls (mainWith env cs).1 = cs.take (k + 1) ∧
    Event.errorMsg e ∈ (mainWith env cs).1 := by
  have hpre0 : ∀ j, j < k → (env.beh (0 + j)).isRuns = true := by
    intro j hj
    rw [Nat.zero_add]
    exact hpre j hj
  have hk0 : env.beh (0 + k) = .raises e := by rw [Nat.zero_add]; exact hk
  obtain ⟨h2, h1⟩ :=
    runCommands_abort env.encOk env.beh cs 0 k e hpre0 hk0 hlen
  rcases hrc : runCommands env.encOk env.beh cs 0 with ⟨evs, res⟩
  rw [hrc] at h2 h1
  subst h2
  refine ⟨?_, ?_, ?_⟩
  · simp [mainWith, hconn, hrc]
  · simp [mainWith, hconn, hrc, execCalls_append, execCalls, headerEvents]
    simpa [execCalls] using h1
  · simp [mainWith, hconn, hrc]

theorem C5_witness :
    (mainWith ⟨none, fun i => if i = 0 then .runs [] (.ok "") 0 else .raises .timeoutErr,
        fun _ => true⟩ ["a", "b", "c"]).2 = 1 ∧
    execCalls (mainWith ⟨none,
        fun i => if i = 0 then .runs [] (.ok "") 0 else .raises .timeoutErr,
        fun _ => true⟩ ["a", "b", "c"]).1 = ["a", "b", "c"].take (1 + 1) ∧
    Event.errorMsg .timeoutErr ∈ (mainWith ⟨none,
        fun i => if i = 0 then .runs [] (.ok "") 0 else .raises .timeoutErr,
        fun _ => true⟩ ["a", "b", "c"]).1 :=
  C5_transport_error_aborts
    ⟨none, fun i => if i = 0 then .runs [] (.ok "") 0 else .raises .timeoutErr,
      fun _ => true⟩
    ["a", "b", "c"] 1 .timeoutErr rfl
    (by
      intro j hj
      have hj0 : j = 0 := by omega
      subst hj0
      rfl)
    rfl (Or.inr rfl) (by decide)

/-- C6: for every remote output line the invoker's encoding cannot
represent, `run_command` prints the best-effort lossy ASCII re-encoding
of that line instead, and the command still completes normally with its
exit status — the encoding failure is never propagated and never aborts
the run. -/
theorem C6_lossy_encoding (encOk : String → Bool) (c : String)
    (outs : List String) (errRead : Except Unit String) (st : Int) (l : String)
    (hmem : l ∈ outs) (henc : encOk l = false) :
    Event.stdoutLine (asciiReplace l) ∈ (run_command encOk c (.runs outs errRead st)).1 ∧
    (run_command encOk c (.runs outs errRead st)).2 = .ok st := by
  constructor
  · have hmap : Event.stdoutLine (asciiReplace l) ∈ outEvents encOk outs := by
      have hm := List.mem_map_of_mem
        (fun l => Event.stdoutLine (if encOk l then l else asciiReplace l)) hmem
      simpa [outEvents, henc] using hm
    simp only [run_command, List.mem_cons, List.mem_append]
    exact Or.inr (Or.inr (Or.inl hmap))
  · rfl

theorem C6_witness :
    Event.stdoutLine (asciiReplace "héllo") ∈
      (run_command (fun _ => false) "docker ps"
        (.runs ["héllo"] (.ok "") 0)).1 ∧
    (run_command (fun _ => false) "docker ps"
      (.runs ["héllo"] (.ok "") 0)).2 = .ok 0 :=
  C6_lossy_encoding (fun _ => false) "docker ps" ["héllo"] (.ok "") 0 "héllo"
    (List.mem_singleton.mpr rfl) rfl

/-- C7: on every exit path of `main` — connect failure, a transport raise
inside the loop, and normal completion — the final action of the run is
the `finally`-block call to the session's `close`; and (modelled from the
spec, since `paramiko.SSHClient.close` is library code outside this
repository) `close` is idempotent and safe on a session that never
connected. -/
theorem C7_close_on_all_paths :
    (∀ (env : Env) (cs : List String),
      ∃ pre, (mainWith env cs).1 = pre ++ [Event.closeCall]) ∧
    (∀ s : SessionState, closeSessionState (closeSessionState s) = closeSessionState s) ∧
    closeSessionState .neverConnected = .closed := by
  refine ⟨?_, fun s => rfl, rfl⟩
  intro env cs
  cases hc : env.connectOutcome with
  | some e =>
      exact ⟨headerEvents ++ [.connectCall, .errorMsg e], by simp [mainWith, hc]⟩
  | none =>
      rcases hrc : runCommands env.encOk env.beh cs 0 with ⟨evs, res⟩
      cases res with
      | some e =>
          exact ⟨headerEvents ++ [.connectCall, .info "Connected successfully!\n"]
            ++ evs ++ [.errorMsg e], by simp [mainWith, hc, hrc]⟩
      | none =>
          exact ⟨headerEvents ++ [.connectCall, .info "Connected successfully!\n"]
            ++ evs ++ footerEvents, by simp [mainWith, hc, hrc, footerEvents]⟩

/-- C8: a command with no output lines, no error text and exit status 0
contributes exactly one line to the progress channel: the `>>> `
announcement line — no stdout lines, no `STDERR:` block and no
warning. -/
theorem C8_quiet_command (encOk : String → Bool) (c : String) :
    printsOf ((run_command encOk c (.runs [] (.ok "") 0)).1 ++ warnEvents c 0) =
      ["\n>>> " ++ c] := by
  simp [run_command, outEvents, errEvents, warnEvents, printsOf, printedLines]

/-- C9: the diagnostic exemption is decided solely by whether the command
string contains the substring `"curl"`: any command containing `"curl"`
anywhere never produces a warning (whatever its non-zero status), and for
any command not containing `"curl"` a non-zero status always produces the
warning. -/
theorem C9_curl_exemption (c : String) (st : Int) :
    (strContains c "curl" = true → warnEvents c st = []) ∧
    (strContains c "curl" = false → st ≠ 0 → warnEvents c st = [.warning st]) := by
  constructor
  · intro hcu
    simp [warnEvents, hcu]
  · intro hcu hst
    simp [warnEvents, hcu, hst]

theorem C9_witness :
    warnEvents "echo curl-not-a-probe" 7 = [] ∧
    warnEvents "docker ps" 7 = [.warning 7] :=
  ⟨(C9_curl_exemption "echo curl-not-a-probe" 7).1 rfl,
   (C9_curl_exemption "docker ps" 7).2 rfl (by decide)⟩

/-- C10: if reading or decoding a command's error stream raises, the
exception is silently suppressed by the bare `except: pass`: no `STDERR:`
block appears in the command's events, nothing propagates, and
`run_command` still returns the command's exit status. -/
theorem C10_stderr_suppressed (encOk : String → Bool) (c : String)
    (outs : List String) (st : Int) :
    (∀ s, Event.stderrBlock s ∉ (run_command encOk c (.runs outs (.error ()) st)).1) ∧
    (run_command encOk c (.runs outs (.error ()) st)).2 = .ok st := by
  constructor
  · intro s
    simp [run_command, outEvents, errEvents, List.mem_cons, List.mem_append,
      List.mem_map]
  · rfl

end RemoteDeploy
